import Mathlib

/-!
Shallow embedding of the chip8 emulator (src/isa.rs, src/machine.rs, src/lib.rs).

Machine integers are modelled as `Nat` with explicit wrapping (`% 256`,
`% 65536`) where the Rust code wraps.  Every Rust array access is modelled
through a bounds-checked read/write returning `Option`; `none` stands for a
Rust panic (out-of-bounds index or arithmetic overflow abort).  The random
source used by the RAND instruction is passed to `step` as an explicit byte
oracle argument.
-/

namespace Chip8

/-- The instruction set, mirroring `enum ISA` in src/isa.rs.  Register
operands are `Nat` (Rust `usize`), immediates are 8-bit values, addresses
12-bit values, all as produced by `decode`. -/
inductive ISA where
  | CLS
  | RET
  | SYS (n : Nat)
  | JP (n : Nat)
  | CALL (n : Nat)
  | SKE (x : Nat) (n : Nat)
  | SKNE (x : Nat) (n : Nat)
  | SKRE (x : Nat) (y : Nat)
  | LOAD (x : Nat) (n : Nat)
  | ADD (x : Nat) (n : Nat)
  | MOVE (x : Nat) (y : Nat)
  | OR (x : Nat) (y : Nat)
  | AND (x : Nat) (y : Nat)
  | XOR (x : Nat) (y : Nat)
  | ADDR (x : Nat) (y : Nat)
  | SUB (x : Nat) (y : Nat)
  | SHR (x : Nat) (y : Nat)
  | SUBN (x : Nat) (y : Nat)
  | SHL (x : Nat) (y : Nat)
  | SKRNE (x : Nat) (y : Nat)
  | LOADI (n : Nat)
  | JUMPI (n : Nat)
  | RAND (x : Nat) (n : Nat)
  | DRAW (x : Nat) (y : Nat) (n : Nat)
  | SKPR (x : Nat)
  | SKUP (x : Nat)
  | MOVED (x : Nat)
  | KEYD (x : Nat)
  | LOADD (x : Nat)
  | LOADS (x : Nat)
  | ADDI (x : Nat)
  | LDSPR (x : Nat)
  | BCD (x : Nat)
  | STOR (x : Nat)
  | READ (x : Nat)
  | NOP (c : Nat)
deriving DecidableEq, Repr

/-- `decode` from src/isa.rs: reads two bytes from the window (failing with
`none` when fewer than two are available, mirroring `bytes.get(0)?` /
`bytes.get(1)?`), combines them big-endian and classifies the 16-bit value. -/
def decode (bytes : List Nat) : Option ISA := do
  let high ← bytes.get? 0
  let low ← bytes.get? 1
  let opcode := (high <<< 8) ||| low
  let op :=
    match opcode &&& 0xf000 with
    | 0x0000 =>
      if opcode = 0x00e0 then ISA.CLS
      else if opcode = 0x00ee then ISA.RET
      else ISA.SYS (opcode &&& 0x0fff)
    | 0x1000 => ISA.JP (opcode &&& 0x0fff)
    | 0x2000 => ISA.CALL (opcode &&& 0x0fff)
    | 0x3000 => ISA.SKE ((opcode &&& 0x0f00) >>> 8) (opcode &&& 0x00ff)
    | 0x4000 => ISA.SKNE ((opcode &&& 0x0f00) >>> 8) (opcode &&& 0x00ff)
    | 0x5000 => ISA.SKRE ((opcode &&& 0x0f00) >>> 8) ((opcode &&& 0x00f0) >>> 4)
    | 0x6000 => ISA.LOAD ((opcode &&& 0x0f00) >>> 8) (opcode &&& 0x00ff)
    | 0x7000 => ISA.ADD ((opcode &&& 0x0f00) >>> 8) (opcode &&& 0x00ff)
    | 0x8000 =>
      let x := (opcode &&& 0x0f00) >>> 8
      let y := (opcode &&& 0x00f0) >>> 4
      match opcode &&& 0xf with
      | 0x0 => ISA.MOVE x y
      | 0x1 => ISA.OR x y
      | 0x2 => ISA.AND x y
      | 0x3 => ISA.XOR x y
      | 0x4 => ISA.ADDR x y
      | 0x5 => ISA.SUB x y
      | 0x6 => ISA.SHR x y
      | 0x7 => ISA.SUBN x y
      | 0xE => ISA.SHL x y
      | _ => ISA.NOP opcode
    | 0x9000 => ISA.SKRNE ((opcode &&& 0x0f00) >>> 8) ((opcode &&& 0x00f0) >>> 4)
    | 0xA000 => ISA.LOADI (opcode &&& 0x0fff)
    | 0xB000 => ISA.JUMPI (opcode &&& 0x0fff)
    | 0xC000 => ISA.RAND ((opcode &&& 0x0f00) >>> 8) (opcode &&& 0x00ff)
    | 0xD000 => ISA.DRAW ((opcode &&& 0x0f00) >>> 8) ((opcode &&& 0x00f0) >>> 4)
        ((opcode &&& 0x000f) >>> 0)
    | 0xE000 =>
      let x := (opcode &&& 0x0f00) >>> 8
      match opcode &&& 0xff with
      | 0x9E => ISA.SKPR x
      | 0xA1 => ISA.SKUP x
      | _ => ISA.NOP opcode
    | 0xF000 =>
      let x := (opcode &&& 0x0f00) >>> 8
      match opcode &&& 0xff with
      | 0x07 => ISA.MOVED x
      | 0x0A => ISA.KEYD x
      | 0x15 => ISA.LOADD x
      | 0x18 => ISA.LOADS x
      | 0x1E => ISA.ADDI x
      | 0x29 => ISA.LDSPR x
      | 0x33 => ISA.BCD x
      | 0x55 => ISA.STOR x
      | 0x65 => ISA.READ x
      | _ => ISA.NOP opcode
    | _ => ISA.NOP opcode
  pure op

/-- The 80-byte interpreter font table from `Memory::default` in
src/machine.rs (16 glyphs of 5 bytes each). -/
def fontList : List Nat :=
  [0xF0, 0x90, 0x90, 0x90, 0xF0,
   0x20, 0x60, 0x20, 0x20, 0x70,
   0xF0, 0x10, 0xF0, 0x80, 0xF0,
   0xF0, 0x10, 0xF0, 0x10, 0xF0,
   0x90, 0x90, 0xF0, 0x10, 0x10,
   0xF0, 0x80, 0xF0, 0x10, 0xF0,
   0xF0, 0x80, 0xF0, 0x90, 0xF0,
   0xF0, 0x10, 0x20, 0x40, 0x40,
   0xF0, 0x90, 0xF0, 0x90, 0xF0,
   0xF0, 0x90, 0xF0, 0x10, 0xF0,
   0xF0, 0x90, 0xF0, 0x90, 0x90,
   0xE0, 0x90, 0xE0, 0x90, 0xE0,
   0xF0, 0x80, 0x80, 0x80, 0xF0,
   0xE0, 0x90, 0x90, 0x90, 0xE0,
   0xF0, 0x80, 0xF0, 0x80, 0xF0,
   0xF0, 0x80, 0xF0, 0x80, 0x80]

def font (j : Nat) : Nat := fontList.getD j 0

/-- Machine state: CPU register file, memory arrays and keypad, mirroring
`struct CPU`, `struct Memory` and `struct Machine` in src/machine.rs.
Arrays are total functions; all accesses go through bounds-checked
readers/writers below, so out-of-range indices surface as `none`. -/
structure Machine where
  r : Nat → Nat       -- 16 general purpose 8-bit registers
  i : Nat             -- addressing register
  dt : Nat            -- delay timer (u8)
  st : Nat            -- sound timer (u8)
  pc : Nat            -- program counter
  sp : Nat            -- stack pointer
  rom : Nat → Nat     -- 80-byte font table
  ram : Nat → Nat     -- 4096-byte RAM
  stack : Nat → Nat   -- 24-slot stack of u16 return addresses
  fb : Nat → Nat      -- 64*32 = 2048-byte framebuffer
  keys : Nat → Bool   -- 16 key states

/-- Bounds-checked array read; `none` models the Rust index panic. -/
def aget (len : Nat) (f : Nat → Nat) (idx : Nat) : Option Nat :=
  if idx < len then some (f idx) else none

/-- Bounds-checked array write; `none` models the Rust index panic. -/
def aset (len : Nat) (f : Nat → Nat) (idx v : Nat) : Option (Nat → Nat) :=
  if idx < len then some (Function.update f idx v) else none

/-- Bounds-checked keypad read (16 entries). -/
def kget (keys : Nat → Bool) (idx : Nat) : Option Bool :=
  if idx < 16 then some (keys idx) else none

/-- Bounds-checked keypad write (16 entries). -/
def kset (keys : Nat → Bool) (idx : Nat) (v : Bool) : Option (Nat → Bool) :=
  if idx < 16 then some (Function.update keys idx v) else none

/-- u8 wrapping addition. -/
def add8 (a b : Nat) : Nat := (a + b) % 256

/-- u8 wrapping subtraction. -/
def sub8 (a b : Nat) : Nat := (a % 256 + (256 - b % 256)) % 256

/-- `Machine::new`: zeroed CPU/keys and default memory (font table in
`rom`, RAM/stack/framebuffer zeroed). -/
def Machine.new : Machine :=
  { r := fun _ => 0, i := 0, dt := 0, st := 0, pc := 0, sp := 0,
    rom := font, ram := fun _ => 0, stack := fun _ => 0,
    fb := fun _ => 0, keys := fun _ => false }

/-- `Machine::reset`: PC to the 0x200 entry point, SP to the last stack
slot (23), and that slot seeded with the entry point. -/
def Machine.reset (m : Machine) : Machine :=
  { m with pc := 0x200, sp := 23,
           stack := Function.update m.stack 23 (0x200 % 65536) }

/-- `Machine::load` composed with `Memory::load`.  The program source is
`none` when `File::open` fails (the only I/O error the source propagates:
read errors inside the `while let Ok(..)` loop are swallowed and reported
as a successful count).  On open failure the source returns before the
font copy, so RAM is untouched; on success the font table is copied to
RAM[0..80], then the program bytes are copied from PC (= 0x200) onward,
clipped to RAM capacity, and the copied count is returned. -/
def Machine.load (file : Option (List Nat)) (m : Machine) : Machine × Option Nat :=
  let m1 := m.reset
  match file with
  | none => (m1, none)
  | some bytes =>
      let ram1 : Nat → Nat := fun j => if j < 80 then m1.rom j else m1.ram j
      let copied := min bytes.length (4096 - m1.pc)
      let ram2 : Nat → Nat := fun j =>
        if m1.pc ≤ j ∧ j < m1.pc + copied then bytes.getD (j - m1.pc) 0 else ram1 j
      ({ m1 with ram := ram2 }, some copied)

/-- `Machine::tick`: decrement each timer by one, stopping at zero. -/
def Machine.tick (m : Machine) : Machine :=
  { m with dt := if m.dt > 0 then m.dt - 1 else m.dt,
           st := if m.st > 0 then m.st - 1 else m.st }

/-- `keyevent` from src/lib.rs: `self.m.keys[key] = state` (unchecked
index, so out-of-range keys fault). -/
def Machine.keyevent (key : Nat) (state : Bool) (m : Machine) : Option Machine :=
  if key < 16 then some { m with keys := Function.update m.keys key state }
  else none

/-- The iteration order of `(0..8).cartesian_product(0..n)` in the DRAW
arm: column index first (slow), row index second (fast). -/
def drawPairs (n : Nat) : List (Nat × Nat) :=
  (List.range 8).flatMap (fun a => (List.range n).map (fun b => (a, b)))

/-- The framebuffer index written for sprite column `a` and row `b` at
base coordinates `(px, py)`: `64 * ((py + j) % 32) + (px + i) % 64` from
the DRAW arm, wrapping each pixel independently. -/
def tgtPix (px py a b : Nat) : Nat := 64 * ((py + b) % 32) + (px + a) % 64

/-- The DRAW loop body over the remaining (column, row) pairs, threading
the framebuffer and the collision flag. -/
def drawGo (ram : Nat → Nat) (base px py : Nat) :
    List (Nat × Nat) → (Nat → Nat) → Nat → Option ((Nat → Nat) × Nat)
  | [], fb, vf => some (fb, vf)
  | p :: rest, fb, vf => do
      let row ← aget 4096 ram (base + p.2)
      if row &&& (0x80 >>> p.1) ≠ 0 then do
        let pixel := tgtPix px py p.1 p.2
        let old ← aget 2048 fb pixel
        let vf1 := if old ≠ 0 then 1 else vf
        let fb1 ← aset 2048 fb pixel (old ^^^ 255)
        drawGo ram base px py rest fb1 vf1
      else drawGo ram base px py rest fb vf

/-- The STOR loop: `ram[I+j] = r[j]` for each j in the list. -/
def storGo (r : Nat → Nat) (base : Nat) :
    List Nat → (Nat → Nat) → Option (Nat → Nat)
  | [], ram => some ram
  | j :: rest, ram => do
      let v ← aget 16 r j
      let ram1 ← aset 4096 ram (base + j) v
      storGo r base rest ram1

/-- The READ loop: `r[j] = ram[I+j]` for each j in the list. -/
def readGo (ram : Nat → Nat) (base : Nat) :
    List Nat → (Nat → Nat) → Option (Nat → Nat)
  | [], r => some r
  | j :: rest, r => do
      let v ← aget 4096 ram (base + j)
      let r1 ← aset 16 r j v
      readGo ram base rest r1

/-- The dispatch `match op { .. }` inside `Machine::step`, one arm per
instruction, mirrored line by line from src/machine.rs.  `none` models a
panic (out-of-bounds index, `sp` underflow in CALL, or the explicit
`panic!` in the NOP arm).  `rnd` is the oracle for `rand::thread_rng`;
`gen_range(0..255)` is modelled as `rnd % 255`. -/
def exec (rnd : Nat) (op : ISA) (m : Machine) : Option Machine :=
  match op with
  | .CLS => some { m with fb := fun _ => 0, pc := m.pc + 2 }
  | .RET => do
      let v ← aget 24 m.stack m.sp
      pure { m with pc := v, sp := m.sp + 1 }
  | .SYS n => some { m with pc := n }
  | .JP n => some { m with pc := n }
  | .CALL n =>
      if m.sp = 0 then none
      else do
        let sp := m.sp - 1
        let st ← aset 24 m.stack sp ((m.pc + 2) % 65536)
        pure { m with sp := sp, stack := st, pc := n }
  | .SKE x n => do
      let vx ← aget 16 m.r x
      pure { m with pc := m.pc + (if vx = n then 4 else 2) }
  | .SKNE x n => do
      let vx ← aget 16 m.r x
      pure { m with pc := m.pc + (if vx ≠ n then 4 else 2) }
  | .SKRE x y => do
      let vx ← aget 16 m.r x
      let vy ← aget 16 m.r y
      pure { m with pc := m.pc + (if vx = vy then 4 else 2) }
  | .LOAD x n => do
      let r1 ← aset 16 m.r x n
      pure { m with r := r1, pc := m.pc + 2 }
  | .ADD x n => do
      let vx ← aget 16 m.r x
      let r1 ← aset 16 m.r x (add8 vx n)
      pure { m with r := r1, pc := m.pc + 2 }
  | .MOVE x y => do
      let vy ← aget 16 m.r y
      let r1 ← aset 16 m.r x vy
      pure { m with r := r1, pc := m.pc + 2 }
  | .OR x y => do
      let vx ← aget 16 m.r x
      let vy ← aget 16 m.r y
      let r1 ← aset 16 m.r x (vx ||| vy)
      pure { m with r := r1, pc := m.pc + 2 }
  | .AND x y => do
      let vx ← aget 16 m.r x
      let vy ← aget 16 m.r y
      let r1 ← aset 16 m.r x (vx &&& vy)
      pure { m with r := r1, pc := m.pc + 2 }
  | .XOR x y => do
      let vx ← aget 16 m.r x
      let vy ← aget 16 m.r y
      let r1 ← aset 16 m.r x (vx ^^^ vy)
      pure { m with r := r1, pc := m.pc + 2 }
  | .ADDR x y => do
      let vx ← aget 16 m.r x
      let vy ← aget 16 m.r y
      let v := if vx + vy ≤ 255 then vx + vy else add8 vx vy
      let flag := if vx + vy ≤ 255 then 0 else 1
      let r1 ← aset 16 m.r x v
      let r2 ← aset 16 r1 15 flag
      pure { m with r := r2, pc := m.pc + 2 }
  | .SUB x y => do
      let vx ← aget 16 m.r x
      let vy ← aget 16 m.r y
      let v := if vy ≤ vx then vx - vy else sub8 vx vy
      let flag := if vy ≤ vx then 1 else 0
      let r1 ← aset 16 m.r x v
      let r2 ← aset 16 r1 15 flag
      pure { m with r := r2, pc := m.pc + 2 }
  | .SHR x _y => do
      let vx ← aget 16 m.r x
      let r1 ← aset 16 m.r 15 (vx &&& 1)
      let vx2 ← aget 16 r1 x
      let r2 ← aset 16 r1 x (vx2 / 2)
      pure { m with r := r2, pc := m.pc + 2 }
  | .SUBN x y => do
      let vx ← aget 16 m.r x
      let vy ← aget 16 m.r y
      let v := if vx ≤ vy then vy - vx else sub8 vy vx
      let flag := if vx ≤ vy then 1 else 0
      let r1 ← aset 16 m.r x v
      let r2 ← aset 16 r1 15 flag
      pure { m with r := r2, pc := m.pc + 2 }
  | .SHL x _y => do
      let vx ← aget 16 m.r x
      let r1 ← aset 16 m.r 15 ((vx &&& 0x80) >>> 7)
      let vx2 ← aget 16 r1 x
      let r2 ← aset 16 r1 x ((vx2 * 2) % 256)
      pure { m with r := r2, pc := m.pc + 2 }
  | .SKRNE x y => do
      let vx ← aget 16 m.r x
      let vy ← aget 16 m.r y
      pure { m with pc := m.pc + (if vx ≠ vy then 4 else 2) }
  | .LOADI n => some { m with i := n, pc := m.pc + 2 }
  | .JUMPI n => do
      let v0 ← aget 16 m.r 0
      pure { m with pc := v0 + n }
  | .RAND x n => do
      let r1 ← aset 16 m.r x ((rnd % 255) &&& n)
      pure { m with r := r1, pc := m.pc + 2 }
  | .DRAW x y n => do
      let r1 ← aset 16 m.r 15 0
      let px ← aget 16 r1 x
      let py ← aget 16 r1 y
      let res ← drawGo m.ram m.i px py (drawPairs n) m.fb 0
      let r2 ← aset 16 r1 15 res.2
      pure { m with r := r2, fb := res.1, pc := m.pc + 2 }
  | .SKPR x => do
      let vx ← aget 16 m.r x
      let k ← kget m.keys vx
      pure { m with pc := m.pc + (if k then 4 else 2) }
  | .SKUP x => do
      let vx ← aget 16 m.r x
      let k ← kget m.keys vx
      pure { m with pc := m.pc + (if k = false then 4 else 2) }
  | .MOVED x => do
      let r1 ← aset 16 m.r x m.dt
      pure { m with r := r1, pc := m.pc + 2 }
  | .KEYD x =>
      match (List.range 16).find? (fun j => m.keys j) with
      | some key => do
          let ks ← kset m.keys x false
          let r1 ← aset 16 m.r x key
          pure { m with keys := ks, r := r1, pc := m.pc + 2 }
      | none => some m
  | .LOADD x => do
      let vx ← aget 16 m.r x
      pure { m with dt := vx, pc := m.pc + 2 }
  | .LOADS x => do
      let vx ← aget 16 m.r x
      pure { m with st := vx, pc := m.pc + 2 }
  | .ADDI x => do
      let vx ← aget 16 m.r x
      pure { m with i := m.i + vx, pc := m.pc + 2 }
  | .LDSPR x => do
      let vx ← aget 16 m.r x
      pure { m with i := (vx &&& 0xf) * 5, pc := m.pc + 2 }
  | .BCD x => do
      let vx ← aget 16 m.r x
      let ram1 ← aset 4096 m.ram m.i ((vx / 100) % 10)
      let ram2 ← aset 4096 ram1 (m.i + 1) ((vx / 10) % 10)
      let ram3 ← aset 4096 ram2 (m.i + 2) (vx % 10)
      pure { m with ram := ram3, pc := m.pc + 2 }
  | .STOR n => do
      let ram1 ← storGo m.r m.i (List.range (1 + n)) m.ram
      pure { m with ram := ram1, pc := m.pc + 2 }
  | .READ n => do
      let r1 ← readGo m.ram m.i (List.range (1 + n)) m.r
      pure { m with r := r1, pc := m.pc + 2 }
  | .NOP _ => none

/-- `Memory::opcode`: `&self.ram[addr .. addr+2]`, which panics when the
range end exceeds 4096; otherwise yields exactly the two bytes. -/
def opcodeAt (m : Machine) : Option (List Nat) :=
  if m.pc + 2 ≤ 4096 then some [m.ram m.pc, m.ram (m.pc + 1)] else none

/-- The possible outcomes of one `Machine::step` call. `ok` carries the
pre-execution PC, the decoded instruction and the mutated machine
(`Some((pc, op))` in the source); `fetchNone` is the source's `None`
return (decode failed); `fault` is a panic. -/
inductive StepResult where
  | ok (pc : Nat) (op : ISA) (m : Machine)
  | fetchNone (m : Machine)
  | fault

/-- `Machine::step`: fetch two bytes at PC (panicking at the end of RAM),
decode, execute, and report the pre-execution PC with the instruction. -/
def step (rnd : Nat) (m : Machine) : StepResult :=
  match opcodeAt m with
  | none => .fault
  | some bs =>
    match decode bs with
    | none => .fetchNone m
    | some op =>
      match exec rnd op m with
      | some m1 => .ok m.pc op m1
      | none => .fault

/-- States reachable through the host-facing operations: construction,
reset, load, successful step, timer tick, key events. -/
inductive Reachable : Machine → Prop where
  | new : Reachable Machine.new
  | reset {m : Machine} : Reachable m → Reachable m.reset
  | load {m : Machine} (file : Option (List Nat)) :
      Reachable m → Reachable (m.load file).1
  | step {m : Machine} (rnd pc : Nat) (op : ISA) {m1 : Machine} :
      Reachable m → step rnd m = .ok pc op m1 → Reachable m1
  | tick {m : Machine} : Reachable m → Reachable m.tick
  | key {m : Machine} (k : Nat) (s : Bool) {m1 : Machine} :
      Reachable m → m.keyevent k s = some m1 → Reachable m1

/-- Machine poised at a KEYD(1) instruction with no key pressed. -/
def MkeydIdle : Machine :=
  { Machine.new with
    pc := 0x200,
    ram := Function.update (Function.update (fun _ => 0) 0x200 0xF1) 0x201 0x0A }

/-- Machine poised at a KEYD(1) instruction with key 0 pressed. -/
def MkeydHit : Machine :=
  { MkeydIdle with keys := Function.update (fun _ => false) 0 true }

/-- Machine with PC at the last RAM byte (4095), where the fetch slice
`ram[4095..4097]` is out of range. -/
def MpcEnd : Machine := { Machine.new with pc := 4095 }

/-- Machine poised at DRAW(0,0,1) with I = 0x300, sprite byte 0x80 there,
and pixel (0,0) holding the non-zero (lit) byte 1. -/
def MdrawOne : Machine :=
  { Machine.new with
    pc := 0x200, i := 0x300,
    ram := Function.update (Function.update (Function.update (fun _ => 0)
      0x200 0xD0) 0x201 0x01) 0x300 0x80,
    fb := Function.update (fun _ => 0) 0 1 }

/-- Same DRAW(0,0,1) setup but with pixel (0,0) holding the lit byte 255,
as produced by the machine's own drawing. -/
def MdrawFull : Machine :=
  { MdrawOne with fb := Function.update (fun _ => 0) 0 255 }

/-- Machine with a CALL at 0x200 targeting 0x210 and a RET at 0x210. -/
def McallRet : Machine :=
  { Machine.new.reset with
    ram := Function.update (Function.update (Function.update (Function.update
      (fun _ => 0) 0x200 0x22) 0x201 0x10) 0x210 0x00) 0x211 0xEE }

/-- Machine whose register 0 holds 200, an out-of-range key index. -/
def MbigReg : Machine :=
  { Machine.new with r := Function.update (fun _ => 0) 0 200 }

/-- Machine with registers 2 and 3 holding 200 and 100. -/
def Maddsub : Machine :=
  { Machine.new with
    r := Function.update (Function.update (fun _ => 0) 2 200) 3 100 }

section Helpers

/-- Destructor for `Option` bind equations. -/
lemma obind_some {α β : Type} {x : Option α} {f : α → Option β} {b : β} :
    x >>= f = some b ↔ ∃ a, x = some a ∧ f a = some b := by
  cases x <;> simp

/-- With two bytes available, `decode` always produces an instruction. -/
lemma decode_cons (a b : Nat) (l : List Nat) :
    ∃ op, decode (a :: b :: l) = some op :=
  ⟨_, rfl⟩

/-- `decode` fails exactly when fewer than two bytes are available. -/
lemma decode_none_iff (bs : List Nat) : decode bs = none ↔ bs.length < 2 := by
  match bs with
  | [] => simp [decode]
  | [a] => simp [decode]
  | a :: b :: l =>
    obtain ⟨op, hop⟩ := decode_cons a b l
    rw [hop]
    simp

/-- `step` never takes the fetch-failure return: a successful two-byte
fetch always decodes to some instruction. -/
lemma step_no_fetchNone (rnd : Nat) (m m3 : Machine) :
    step rnd m ≠ .fetchNone m3 := by
  by_cases hpc : m.pc + 2 ≤ 4096
  · obtain ⟨op, hop⟩ := decode_cons (m.ram m.pc) (m.ram (m.pc + 1)) []
    simp only [step, opcodeAt, if_pos hpc, hop]
    cases exec rnd op m <;> simp
  · simp only [step, opcodeAt, if_neg hpc]
    simp

/-- Destructor for `Option.bind` equations (the unsugared bind form). -/
lemma obind_some2 {α β : Type} {x : Option α} {f : α → Option β} {b : β} :
    Option.bind x f = some b ↔ ∃ a, x = some a ∧ f a = some b := by
  cases x <;> simp

/-- No instruction arm of `exec` touches the font table. -/
lemma exec_rom (rnd : Nat) (op : ISA) (m m' : Machine)
    (h : exec rnd op m = some m') : m'.rom = m.rom := by
  cases op <;> simp only [exec] at h <;>
    (try split at h) <;>
    first
    | exact Option.noConfusion h
    | (try simp only [obind_some, obind_some2, Option.pure_def,
        Option.some_inj] at h
       try repeat obtain ⟨_, _, h⟩ := h
       first
       | (subst h; rfl)
       | exact Option.noConfusion h
       | rfl)

/-- A successful step preserves the font table. -/
lemma step_ok_rom {rnd pc : Nat} {op : ISA} {m m1 : Machine}
    (h : step rnd m = .ok pc op m1) : m1.rom = m.rom := by
  unfold step at h
  split at h
  · exact StepResult.noConfusion h
  · split at h
    · exact StepResult.noConfusion h
    · split at h
      · rename_i m2 hex
        injection h with h1 h2 h3
        subst h3
        exact exec_rom _ _ _ _ hex
      · exact StepResult.noConfusion h

/-- Reset preserves the font table. -/
lemma reset_rom (m : Machine) : m.reset.rom = m.rom := rfl

/-- Tick preserves the font table. -/
lemma tick_rom (m : Machine) : m.tick.rom = m.rom := rfl

/-- Load (both outcomes) preserves the font table. -/
lemma load_rom (m : Machine) (file : Option (List Nat)) :
    (m.load file).1.rom = m.rom := by
  cases file <;> rfl

/-- A key event preserves the font table. -/
lemma keyevent_rom {m m1 : Machine} {k : Nat} {s : Bool}
    (h : m.keyevent k s = some m1) : m1.rom = m.rom := by
  unfold Machine.keyevent at h
  split at h
  · injection h with h
    subst h
    rfl
  · exact Option.noConfusion h

/-- Every DRAW target index is inside the 2048-byte framebuffer. -/
lemma tgtPix_lt (px py a b : Nat) : tgtPix px py a b < 2048 := by
  unfold tgtPix
  have h1 : (py + b) % 32 < 32 := Nat.mod_lt _ (by norm_num)
  have h2 : (px + a) % 64 < 64 := Nat.mod_lt _ (by norm_num)
  omega

/-- Characterization of the DRAW loop on a list of (column, row) pairs
with pairwise-distinct targets: it succeeds when every sprite row read is
in RAM bounds, XOR-flips exactly the targets of set sprite bits, and
raises the collision flag exactly when some set bit hits a non-zero
pixel. -/
lemma drawGo_spec (ram : Nat → Nat) (base px py : Nat) :
    ∀ (L : List (Nat × Nat)) (fb : Nat → Nat) (vf : Nat),
    (∀ p ∈ L, base + p.2 < 4096) →
    List.Pairwise (fun p q : Nat × Nat =>
      tgtPix px py p.1 p.2 ≠ tgtPix px py q.1 q.2) L →
    ∃ fb1 vf1, drawGo ram base px py L fb vf = some (fb1, vf1) ∧
      (∀ p ∈ L, ram (base + p.2) &&& (0x80 >>> p.1) ≠ 0 →
        fb1 (tgtPix px py p.1 p.2) = fb (tgtPix px py p.1 p.2) ^^^ 255) ∧
      (∀ q, (∀ p ∈ L, ram (base + p.2) &&& (0x80 >>> p.1) ≠ 0 →
        tgtPix px py p.1 p.2 ≠ q) → fb1 q = fb q) ∧
      (vf1 = 1 ↔ vf = 1 ∨ ∃ p ∈ L, ram (base + p.2) &&& (0x80 >>> p.1) ≠ 0 ∧
        fb (tgtPix px py p.1 p.2) ≠ 0) ∧
      (vf1 = vf ∨ vf1 = 1) := by
  intro L
  induction L with
  | nil =>
    intro fb vf hbound hpw
    exact ⟨fb, vf, rfl, by simp, fun q _ => rfl, by simp, Or.inl rfl⟩
  | cons p rest ih =>
    intro fb vf hbound hpw
    obtain ⟨hhead, htail⟩ := List.pairwise_cons.mp hpw
    have hb0 : base + p.2 < 4096 := hbound p (List.mem_cons_self p rest)
    have hrow : aget 4096 ram (base + p.2) = some (ram (base + p.2)) := by
      simp [aget, hb0]
    by_cases hbit : ram (base + p.2) &&& (0x80 >>> p.1) ≠ 0
    · -- sprite bit set: the pixel is toggled, then recurse
      have hold : aget 2048 fb (tgtPix px py p.1 p.2) =
          some (fb (tgtPix px py p.1 p.2)) := by
        simp [aget, tgtPix_lt]
      have hset : aset 2048 fb (tgtPix px py p.1 p.2)
          (fb (tgtPix px py p.1 p.2) ^^^ 255) =
          some (Function.update fb (tgtPix px py p.1 p.2)
            (fb (tgtPix px py p.1 p.2) ^^^ 255)) := by
        simp [aset, tgtPix_lt]
      set fbU := Function.update fb (tgtPix px py p.1 p.2)
        (fb (tgtPix px py p.1 p.2) ^^^ 255) with hfbU
      set vfU := if fb (tgtPix px py p.1 p.2) ≠ 0 then 1 else vf with hvfU
      obtain ⟨fb1, vf1, heq, htog, hkeep, hvf, hrange⟩ :=
        ih fbU vfU (fun q hq => hbound q (List.mem_cons_of_mem p hq)) htail
      refine ⟨fb1, vf1, ?_, ?_, ?_, ?_, ?_⟩
      · simp only [drawGo, hrow, Option.bind_eq_bind, Option.some_bind,
          if_pos hbit, hold, hset]
        exact heq
      · intro p' hp' hbit'
        rcases List.mem_cons.mp hp' with rfl | hmem
        · have hnohit : ∀ q ∈ rest, ram (base + q.2) &&& (0x80 >>> q.1) ≠ 0 →
              tgtPix px py q.1 q.2 ≠ tgtPix px py p'.1 p'.2 :=
            fun q hq _ => (hhead q hq).symm
          rw [hkeep _ hnohit, hfbU, Function.update_same]
        · rw [htog p' hmem hbit', hfbU,
            Function.update_noteq (hhead p' hmem).symm]
      · intro q hq
        have : ∀ p' ∈ rest, ram (base + p'.2) &&& (0x80 >>> p'.1) ≠ 0 →
            tgtPix px py p'.1 p'.2 ≠ q :=
          fun p' hp' hb' => hq p' (List.mem_cons_of_mem p hp') hb'
        rw [hkeep q this, hfbU,
          Function.update_noteq (hq p (List.mem_cons_self p rest) hbit).symm]
      · rw [hvf]
        constructor
        · rintro (hvfU1 | ⟨p', hp', hb', hfb'⟩)
          · rw [hvfU] at hvfU1
            by_cases hz : fb (tgtPix px py p.1 p.2) ≠ 0
            · exact Or.inr ⟨p, List.mem_cons_self p rest, hbit, hz⟩
            · rw [if_neg hz] at hvfU1
              exact Or.inl hvfU1
          · rw [hfbU, Function.update_noteq (hhead p' hp').symm] at hfb'
            exact Or.inr ⟨p', List.mem_cons_of_mem p hp', hb', hfb'⟩
        · rintro (hvf1 | ⟨p', hp', hb', hfb'⟩)
          · left
            rw [hvfU]
            split
            · rfl
            · exact hvf1
          · rcases List.mem_cons.mp hp' with rfl | hmem
            · left
              rw [hvfU, if_pos hfb']
            · right
              refine ⟨p', hmem, hb', ?_⟩
              rw [hfbU, Function.update_noteq (hhead p' hmem).symm]
              exact hfb'
      · rcases hrange with h | h
        · rw [hvfU] at h
          by_cases hz : fb (tgtPix px py p.1 p.2) ≠ 0
          · rw [if_pos hz] at h
            exact Or.inr h
          · rw [if_neg hz] at h
            exact Or.inl h
        · exact Or.inr h
    · -- sprite bit clear: nothing drawn for this pair
      obtain ⟨fb1, vf1, heq, htog, hkeep, hvf, hrange⟩ :=
        ih fb vf (fun q hq => hbound q (List.mem_cons_of_mem p hq)) htail
      refine ⟨fb1, vf1, ?_, ?_, ?_, ?_, hrange⟩
      · simp only [drawGo, hrow, Option.bind_eq_bind, Option.some_bind,
          if_neg hbit]
        exact heq
      · intro p' hp' hbit'
        rcases List.mem_cons.mp hp' with rfl | hmem
        · exact absurd hbit' hbit
        · exact htog p' hmem hbit'
      · intro q hq
        exact hkeep q fun p' hp' hb' => hq p' (List.mem_cons_of_mem p hp') hb'
      · rw [hvf]
        constructor
        · rintro (h | ⟨p', hp', hb', hfb'⟩)
          · exact Or.inl h
          · exact Or.inr ⟨p', List.mem_cons_of_mem p hp', hb', hfb'⟩
        · rintro (h | ⟨p', hp', hb', hfb'⟩)
          · exact Or.inl h
          · rcases List.mem_cons.mp hp' with rfl | hmem
            · exact absurd hb' hbit
            · exact Or.inr ⟨p', hmem, hb', hfb'⟩

/-- Membership in the DRAW iteration pairs. -/
lemma mem_drawPairs (a b n : Nat) : (a, b) ∈ drawPairs n ↔ a < 8 ∧ b < n := by
  show (a, b) ∈ (List.range 8) ×ˢ (List.range n) ↔ _
  rw [List.mem_product]
  simp [List.mem_range]

/-- The DRAW iteration pairs are duplicate-free. -/
lemma drawPairs_nodup (n : Nat) : (drawPairs n).Nodup :=
  (List.nodup_range 8).product (List.nodup_range n)

/-- Distinct in-range (column, row) pairs target distinct pixels: the
column is below the 64-pixel wrap and the row below the 32-pixel wrap. -/
lemma tgtPix_inj (px py : Nat) {a b a' b' : Nat} (ha : a < 8) (ha' : a' < 8)
    (hb : b < 32) (hb' : b' < 32)
    (h : tgtPix px py a b = tgtPix px py a' b') : a = a' ∧ b = b' := by
  unfold tgtPix at h
  have h1 : (py + b) % 32 < 32 := Nat.mod_lt _ (by norm_num)
  have h2 : (py + b') % 32 < 32 := Nat.mod_lt _ (by norm_num)
  have h3 : (px + a) % 64 < 64 := Nat.mod_lt _ (by norm_num)
  have h4 : (px + a') % 64 < 64 := Nat.mod_lt _ (by norm_num)
  omega

/-- For a sprite of at most 32 rows, all iteration pairs have pairwise
distinct targets. -/
lemma drawPairs_pairwise (px py n : Nat) (hn : n ≤ 32) :
    List.Pairwise (fun p q : Nat × Nat =>
      tgtPix px py p.1 p.2 ≠ tgtPix px py q.1 q.2) (drawPairs n) := by
  refine List.Pairwise.imp_of_mem ?_ (drawPairs_nodup n)
  intro p q hp hq hne heq
  obtain ⟨hp1, hp2⟩ := (mem_drawPairs p.1 p.2 n).mp hp
  obtain ⟨hq1, hq2⟩ := (mem_drawPairs q.1 q.2 n).mp hq
  obtain ⟨h1, h2⟩ := tgtPix_inj px py hp1 hq1
    (lt_of_lt_of_le hp2 hn) (lt_of_lt_of_le hq2 hn) heq
  exact hne (Prod.ext h1 h2)

end Helpers

/-- C6: decode is total and deterministic over its 16-bit domain: with at
least two bytes it returns exactly one instruction variant (never failing),
it fails precisely when fewer than two bytes are available, and on the
three sample encodings it returns CLS, READ(15) and SHR(10,11). -/
theorem decode_total_deterministic :
    (∀ bs : List Nat, 2 ≤ bs.length → ∃! op, decode bs = some op) ∧
    (∀ bs : List Nat, decode bs = none ↔ bs.length < 2) ∧
    decode [0x00, 0xE0] = some .CLS ∧
    decode [0xFF, 0x65] = some (.READ 15) ∧
    decode [0x8A, 0xB6] = some (.SHR 10 11) := by
  refine ⟨?_, decode_none_iff, by decide, by decide, by decide⟩
  intro bs h
  match bs, h with
  | a :: b :: l, _ =>
    obtain ⟨op, hop⟩ := decode_cons a b l
    exact ⟨op, hop, fun y hy => by rw [hop] at hy; exact (Option.some_inj.mp hy).symm⟩

/-- Witness for C6 at a concrete two-byte input. -/
theorem decode_total_deterministic_witness :
    2 ≤ ([0x8A, 0xB6] : List Nat).length ∧
      ∃! op, decode [0x8A, 0xB6] = some op :=
  ⟨by decide, decode_total_deterministic.1 [0x8A, 0xB6] (by decide)⟩

/-- C1 (failing input): at a KEYD(1) instruction with no key pressed, step
leaves the machine entirely unchanged; with key 0 pressed, step stores the
found index 0 into V1 and advances PC by 2, but it clears the key slot of
the requested register index (slot 1) instead of the discovered key's slot
(slot 0): key 0 stays pressed. -/
theorem keyd_clears_requested_slot :
    step 0 MkeydIdle = .ok 0x200 (.KEYD 1) MkeydIdle ∧
    ∃ m1, step 0 MkeydHit = .ok 0x200 (.KEYD 1) m1 ∧
      m1.r 1 = 0 ∧ m1.pc = 0x202 ∧
      m1.keys 0 = true ∧ m1.keys 1 = false := by
  refine ⟨rfl, _, rfl, ?_, ?_, ?_, ?_⟩ <;> decide

/-- C2: whenever PC addresses fewer than two remaining RAM bytes, the
fetch slice `ram[pc..pc+2]` is out of range and step panics; it never
takes the fetch-failure (`None`) return, which is unreachable because a
successful two-byte slice always decodes. -/
theorem step_end_of_ram_faults (rnd : Nat) (m : Machine) (h : 4095 ≤ m.pc) :
    step rnd m = .fault ∧
    ∀ (rnd2 : Nat) (m2 m3 : Machine), step rnd2 m2 ≠ .fetchNone m3 := by
  constructor
  · unfold step opcodeAt
    rw [if_neg (by omega)]
  · intro rnd2 m2 m3
    exact step_no_fetchNone rnd2 m2 m3

/-- Witness for C2 at PC = 4095. -/
theorem step_end_of_ram_faults_witness :
    4095 ≤ MpcEnd.pc ∧ step 0 MpcEnd = .fault :=
  ⟨by decide, (step_end_of_ram_faults 0 MpcEnd (by decide)).1⟩

/-- C5 (counterexample): when the program source cannot be opened, `load`
propagates the error but has not copied the font table into RAM: byte 0 of
RAM is still 0 while the font table starts with 0xF0, contradicting the
claim that the failed load leaves the font copied into RAM's low region. -/
theorem load_failure_leaves_ram_without_font :
    (Machine.new.load none).2 = none ∧
    (Machine.new.load none).1.rom 0 = 0xF0 ∧
    (Machine.new.load none).1.ram 0 = 0 ∧
    (Machine.new.load none).1.ram 0 ≠ (Machine.new.load none).1.rom 0 := by
  refine ⟨rfl, ?_, ?_, ?_⟩ <;> decide

/-- C5 (amended): a failing load happens only for an unopenable source; it
leaves the machine exactly in the post-reset state with RAM completely
untouched (no font copy, no program bytes), and the error is propagated. -/
theorem load_failure_state (m : Machine) (file : Option (List Nat))
    (h : (m.load file).2 = none) :
    file = none ∧
    (m.load file).1.pc = 0x200 ∧
    (m.load file).1.sp = 23 ∧
    (m.load file).1.stack 23 = 0x200 ∧
    (∀ j, (m.load file).1.ram j = m.ram j) ∧
    (m.load file).1.rom = m.rom := by
  cases file with
  | none =>
    refine ⟨rfl, rfl, rfl, ?_, fun j => rfl, rfl⟩
    simp [Machine.load, Machine.reset]
  | some bytes => simp [Machine.load] at h

/-- Witness for C5 (amended) on a fresh machine and an unopenable file. -/
theorem load_failure_state_witness :
    (Machine.new.load none).2 = none ∧
    (Machine.new.load none).1.pc = 0x200 ∧
    (∀ j, (Machine.new.load none).1.ram j = Machine.new.ram j) :=
  ⟨rfl, (load_failure_state Machine.new none rfl).2.1,
    (load_failure_state Machine.new none rfl).2.2.2.2.1⟩

/-- C8: SKPR/SKUP index the 16-entry key array by the full 8-bit value of
Vx: with Vx ≥ 16 the lookup is out of range and execution panics; with
Vx < 16 it succeeds and skips per the key state. -/
theorem skpr_skup_key_indexing (rnd x : Nat) (m : Machine) (hx : x < 16) :
    (16 ≤ m.r x →
      exec rnd (.SKPR x) m = none ∧ exec rnd (.SKUP x) m = none) ∧
    (m.r x < 16 →
      (∃ m1, exec rnd (.SKPR x) m = some m1 ∧
        m1.pc = m.pc + (if m.keys (m.r x) then 4 else 2)) ∧
      (∃ m2, exec rnd (.SKUP x) m = some m2 ∧
        m2.pc = m.pc + (if m.keys (m.r x) then 2 else 4))) := by
  constructor
  · intro hvx
    constructor <;> simp [exec, aget, kget, hx] <;> omega
  · intro hvx
    constructor
    · exact ⟨{ m with pc := m.pc + (if m.keys (m.r x) then 4 else 2) },
        by simp [exec, aget, kget, hx, hvx], rfl⟩
    · refine ⟨{ m with pc := m.pc + (if m.keys (m.r x) = false then 4 else 2) },
        by simp [exec, aget, kget, hx, hvx], ?_⟩
      cases hk : m.keys (m.r x) <;> simp [hk]

/-- Witness for C8: register 0 holding 200 makes SKPR(0) panic. -/
theorem skpr_skup_key_indexing_witness :
    (0 : Nat) < 16 ∧ 16 ≤ MbigReg.r 0 ∧ exec 0 (.SKPR 0) MbigReg = none :=
  ⟨by decide, by decide,
    ((skpr_skup_key_indexing 0 0 MbigReg (by decide)).1 (by decide)).1⟩

/-- C9: the stack is accessed without its own checks: CALL faults when
SP = 0 (the unchecked decrement), RET faults when SP ≥ 24 (read past the
stack) and succeeds below that; after reset (SP = 23, stack[23] = 0x200)
one unmatched RET harmlessly returns to 0x200 leaving SP = 24, and a
second unmatched RET faults. -/
theorem stack_accesses_unchecked (rnd n : Nat) (m : Machine) :
    (m.sp = 0 → exec rnd (.CALL n) m = none) ∧
    (24 ≤ m.sp → exec rnd .RET m = none) ∧
    (m.sp < 24 → ∃ m1, exec rnd .RET m = some m1 ∧
      m1.pc = m.stack m.sp ∧ m1.sp = m.sp + 1) ∧
    (∃ m2, exec rnd .RET m.reset = some m2 ∧ m2.pc = 0x200 ∧ m2.sp = 24 ∧
      exec rnd .RET m2 = none) := by
  refine ⟨fun h => by simp [exec, h],
    fun h => by simp only [exec, aget]; rw [if_neg (by omega)]; rfl,
    fun h => ⟨{ m with pc := m.stack m.sp, sp := m.sp + 1 },
      by simp [exec, aget, h], rfl, rfl⟩, ?_⟩
  refine ⟨{ m.reset with pc := 0x200, sp := 24 }, ?_, rfl, rfl, ?_⟩
  · simp [exec, aget, Machine.reset]
  · simp only [exec, aget]
    rw [if_neg (by omega)]
    rfl

/-- C4: for 8-bit register values a = Vx and b = Vy (x, y distinct, neither
the flags register), ADDR stores the wrapped sum with VF = 1 exactly on
unsigned overflow, and SUB stores the wrapped difference with VF = 1
exactly when no borrow occurs (a ≥ b). -/
theorem addr_sub_flag_convention (rnd a b x y : Nat) (m : Machine)
    (hx : x < 16) (hy : y < 16) (hxy : x ≠ y) (hx15 : x ≠ 15) (hy15 : y ≠ 15)
    (ha : m.r x = a) (hb : m.r y = b) (ha8 : a < 256) (hb8 : b < 256) :
    (∃ m1, exec rnd (.ADDR x y) m = some m1 ∧
      m1.r x = (a + b) % 256 ∧ (m1.r 15 = 1 ↔ 256 ≤ a + b) ∧
      m1.pc = m.pc + 2) ∧
    (∃ m2, exec rnd (.SUB x y) m = some m2 ∧
      (m2.r x : ℤ) = ((a : ℤ) - (b : ℤ)) % 256 ∧ (m2.r 15 = 1 ↔ b ≤ a) ∧
      m2.pc = m.pc + 2) := by
  subst ha hb
  constructor
  · refine ⟨{ m with
      r := Function.update (Function.update m.r x
        (if m.r x + m.r y ≤ 255 then m.r x + m.r y else add8 (m.r x) (m.r y)))
        15 (if m.r x + m.r y ≤ 255 then 0 else 1),
      pc := m.pc + 2 }, by simp [exec, aget, aset, hx, hy], ?_, ?_, rfl⟩
    · dsimp only
      rw [Function.update_noteq hx15, Function.update_same]
      unfold add8
      split <;> omega
    · dsimp only
      rw [Function.update_same]
      split <;> omega
  · refine ⟨{ m with
      r := Function.update (Function.update m.r x
        (if m.r y ≤ m.r x then m.r x - m.r y else sub8 (m.r x) (m.r y)))
        15 (if m.r y ≤ m.r x then 1 else 0),
      pc := m.pc + 2 }, by simp [exec, aget, aset, hx, hy], ?_, ?_, rfl⟩
    · dsimp only
      rw [Function.update_noteq hx15, Function.update_same]
      unfold sub8
      rw [Nat.mod_eq_of_lt ha8, Nat.mod_eq_of_lt hb8]
      split <;> push_cast [Nat.cast_sub] <;> omega
    · dsimp only
      rw [Function.update_same]
      split <;> omega

/-- Witness for C4 at x = 2, y = 3 with a = 200, b = 100. -/
theorem addr_sub_flag_convention_witness :
    Maddsub.r 2 = 200 ∧ Maddsub.r 3 = 100 ∧
    (∃ m1, exec 0 (.ADDR 2 3) Maddsub = some m1 ∧
      m1.r 2 = (200 + 100) % 256 ∧ (m1.r 15 = 1 ↔ 256 ≤ 200 + 100) ∧
      m1.pc = Maddsub.pc + 2) ∧
    (∃ m2, exec 0 (.SUB 2 3) Maddsub = some m2 ∧
      (m2.r 2 : ℤ) = ((200 : ℤ) - 100) % 256 ∧ (m2.r 15 = 1 ↔ 100 ≤ 200) ∧
      m2.pc = Maddsub.pc + 2) := by
  have h := addr_sub_flag_convention 0 200 100 2 3 Maddsub (by decide) (by decide)
    (by decide) (by decide) (by decide) (by decide) (by decide) (by decide) (by decide)
  exact ⟨by decide, by decide, h.1, h.2⟩

/-- C7: from any state with PC = 0x200, SP in [1, 24) and CALL 0x210 / RET
encoded at 0x200 / 0x210, stepping the CALL enters 0x210 and stepping the
RET returns to 0x202 with SP restored to its pre-CALL value. -/
theorem call_ret_roundtrip (rnd1 rnd2 : Nat) (m : Machine)
    (hpc : m.pc = 0x200) (hsp1 : 1 ≤ m.sp) (hsp2 : m.sp < 24)
    (hb0 : m.ram 0x200 = 0x22) (hb1 : m.ram 0x201 = 0x10)
    (hb2 : m.ram 0x210 = 0x00) (hb3 : m.ram 0x211 = 0xEE) :
    ∃ m1 m2, step rnd1 m = .ok 0x200 (.CALL 0x210) m1 ∧ m1.pc = 0x210 ∧
      step rnd2 m1 = .ok 0x210 .RET m2 ∧ m2.pc = 0x202 ∧ m2.sp = m.sp := by
  have hdec1 : decode [0x22, 0x10] = some (ISA.CALL 0x210) := by decide
  have hdec2 : decode [0x00, 0xEE] = some ISA.RET := by decide
  refine ⟨{ m with
      sp := m.sp - 1,
      stack := Function.update m.stack (m.sp - 1) 514, pc := 528 },
    { m with
      sp := m.sp - 1 + 1,
      stack := Function.update m.stack (m.sp - 1) 514, pc := 514 },
    ?_, rfl, ?_, rfl, by show m.sp - 1 + 1 = m.sp; omega⟩
  · have hfetch : opcodeAt m = some [0x22, 0x10] := by
      simp [opcodeAt, hpc, hb0, hb1]
    have hexec : exec rnd1 (ISA.CALL 0x210) m = some { m with
        sp := m.sp - 1,
        stack := Function.update m.stack (m.sp - 1) 514, pc := 528 } := by
      simp only [exec, aset]
      rw [if_neg (by omega), if_pos (by omega)]
      simp [hpc]
    simp [step, hfetch, hdec1, hexec, hpc]
  · have hfetch : opcodeAt { m with
        sp := m.sp - 1,
        stack := Function.update m.stack (m.sp - 1) 514, pc := 528 } =
        some [0x00, 0xEE] := by
      simp [opcodeAt, hb2, hb3]
    have hexec : exec rnd2 ISA.RET { m with
        sp := m.sp - 1,
        stack := Function.update m.stack (m.sp - 1) 514, pc := 528 } =
        some { m with
          sp := m.sp - 1 + 1,
          stack := Function.update m.stack (m.sp - 1) 514, pc := 514 } := by
      simp only [exec, aget]
      rw [if_pos (by omega : m.sp - 1 < 24)]
      simp [Function.update_same]
    simp [step, hfetch, hdec2, hexec]

/-- Witness for C7 on the concrete CALL/RET machine (SP = 23 after
reset). -/
theorem call_ret_roundtrip_witness :
    ∃ m1 m2, step 0 McallRet = .ok 0x200 (.CALL 0x210) m1 ∧ m1.pc = 0x210 ∧
      step 0 m1 = .ok 0x210 .RET m2 ∧ m2.pc = 0x202 ∧ m2.sp = McallRet.sp :=
  call_ret_roundtrip 0 0 McallRet (by decide) (by decide) (by decide)
    (by decide) (by decide) (by decide) (by decide)

/-- Witness for C9 on a freshly reset machine. -/
theorem stack_accesses_unchecked_witness :
    ∃ m2, exec 0 .RET Machine.new.reset = some m2 ∧ m2.pc = 0x200 ∧
      m2.sp = 24 ∧ exec 0 .RET m2 = none :=
  (stack_accesses_unchecked 0 0 Machine.new).2.2.2

/-- C10: the 80-byte font table is an invariant of the machine: it equals
the 16-glyph sprite data at construction, and every state reachable
through reset, load, step, tick and key events still exposes exactly the
original font table through the read-only ROM view. -/
theorem rom_is_font_invariant (m : Machine) (h : Reachable m) :
    ∀ j, m.rom j = font j := by
  induction h with
  | new => intro j; rfl
  | reset _ ih => intro j; rw [reset_rom]; exact ih j
  | load file _ ih => intro j; rw [load_rom]; exact ih j
  | step rnd pc op _ hstep ih => intro j; rw [step_ok_rom hstep]; exact ih j
  | tick _ ih => intro j; rw [tick_rom]; exact ih j
  | key k s _ hkey ih => intro j; rw [keyevent_rom hkey]; exact ih j

/-- Witness for C10 at the freshly constructed machine. -/
theorem rom_is_font_invariant_witness :
    Reachable Machine.new ∧ ∀ j, Machine.new.rom j = font j :=
  ⟨Reachable.new, rom_is_font_invariant Machine.new Reachable.new⟩

/-- C3 (counterexample): DRAW flips each hit framebuffer byte with a
bitwise NOT, not a boolean XOR.  With pixel (0,0) holding the non-zero
(lit) byte 1, sprite byte 0x80 at I, count 1 and Vx = Vy = 0, the hit
pixel ends as 254 — still lit, not turned unlit — while VF is
nevertheless set to 1 although no pixel was turned off. -/
theorem draw_byte_not_keeps_pixel_lit :
    ∃ m1, step 0 MdrawOne = .ok 0x200 (.DRAW 0 0 1) m1 ∧
      MdrawOne.fb 0 ≠ 0 ∧
      MdrawOne.ram (MdrawOne.i + 0) &&& (0x80 >>> 0) ≠ 0 ∧
      tgtPix (MdrawOne.r 0) (MdrawOne.r 0) 0 0 = 0 ∧
      m1.fb 0 = 254 ∧ m1.fb 0 ≠ 0 ∧ m1.r 15 = 1 := by
  refine ⟨_, rfl, ?_, ?_, ?_, ?_, ?_, ?_⟩ <;> decide

/-- C3 (amended): on a framebuffer whose bytes are all 0 or 255 — which
is every framebuffer the machine itself produces — DRAW composites by
XOR with per-pixel toroidal wrapping: every set sprite bit turns its
previously-lit (255) target pixel unlit (0) and its previously-unlit
target lit (255), other pixels are unchanged, and VF (zeroed before
compositing, hence x, y ≠ 15 here) ends 1 exactly when some
previously-lit target pixel was turned off. -/
theorem draw_xor_toggles_on_binary_fb (rnd x y n : Nat) (m : Machine)
    (hx : x < 16) (hy : y < 16) (hx15 : x ≠ 15) (hy15 : y ≠ 15) (hn : n ≤ 15)
    (hram : m.i + n ≤ 4096)
    (hfb : ∀ q, m.fb q = 0 ∨ m.fb q = 255) :
    ∃ m1, exec rnd (.DRAW x y n) m = some m1 ∧ m1.pc = m.pc + 2 ∧
      (∀ a b, a < 8 → b < n → m.ram (m.i + b) &&& (0x80 >>> a) ≠ 0 →
        (m.fb (tgtPix (m.r x) (m.r y) a b) ≠ 0 →
            m1.fb (tgtPix (m.r x) (m.r y) a b) = 0) ∧
        (m.fb (tgtPix (m.r x) (m.r y) a b) = 0 →
            m1.fb (tgtPix (m.r x) (m.r y) a b) = 255)) ∧
      (∀ q, (∀ a b, a < 8 → b < n →
          m.ram (m.i + b) &&& (0x80 >>> a) ≠ 0 →
          tgtPix (m.r x) (m.r y) a b ≠ q) → m1.fb q = m.fb q) ∧
      (m1.r 15 = 0 ∨ m1.r 15 = 1) ∧
      (m1.r 15 = 1 ↔ ∃ a b, a < 8 ∧ b < n ∧
        m.ram (m.i + b) &&& (0x80 >>> a) ≠ 0 ∧
        m.fb (tgtPix (m.r x) (m.r y) a b) ≠ 0 ∧
        m1.fb (tgtPix (m.r x) (m.r y) a b) = 0) := by
  obtain ⟨fb1, vf1, heq, hset, hkeep, hvf, hrange⟩ :=
    drawGo_spec m.ram m.i (m.r x) (m.r y) (drawPairs n) m.fb 0
      (fun p hp => by
        have := ((mem_drawPairs p.1 p.2 n).mp hp).2
        omega)
      (drawPairs_pairwise (m.r x) (m.r y) n (by omega))
  have hexec : exec rnd (.DRAW x y n) m = some { m with
      r := Function.update (Function.update m.r 15 0) 15 vf1,
      fb := fb1, pc := m.pc + 2 } := by
    simp [exec, aset, aget, hx, hy, Function.update_noteq hx15,
      Function.update_noteq hy15, heq]
  refine ⟨_, hexec, rfl, ?_, ?_, ?_, ?_⟩
  · intro a b ha hb hbit
    have hmem : (a, b) ∈ drawPairs n := (mem_drawPairs a b n).mpr ⟨ha, hb⟩
    have htog := hset (a, b) hmem hbit
    constructor
    · intro hlit
      have h255 : m.fb (tgtPix (m.r x) (m.r y) a b) = 255 :=
        (hfb _).resolve_left hlit
      show fb1 _ = 0
      rw [htog, h255]
      decide
    · intro hz
      show fb1 _ = 255
      rw [htog, hz]
      decide
  · intro q hq
    show fb1 q = m.fb q
    refine hkeep q ?_
    intro p hp hbit
    obtain ⟨hp1, hp2⟩ := (mem_drawPairs p.1 p.2 n).mp hp
    exact hq p.1 p.2 hp1 hp2 hbit
  · dsimp only
    rw [Function.update_same]
    rcases hrange with h | h
    · exact Or.inl h
    · exact Or.inr h
  · dsimp only
    rw [Function.update_same, hvf]
    constructor
    · rintro (h01 | ⟨p, hp, hbit, hlit⟩)
      · exact absurd h01 (by norm_num)
      · obtain ⟨hp1, hp2⟩ := (mem_drawPairs p.1 p.2 n).mp hp
        have htog := hset p hp hbit
        have h255 : m.fb (tgtPix (m.r x) (m.r y) p.1 p.2) = 255 :=
          (hfb _).resolve_left hlit
        refine ⟨p.1, p.2, hp1, hp2, hbit, hlit, ?_⟩
        show fb1 _ = 0
        rw [htog, h255]
        decide
    · rintro ⟨a, b, ha, hb, hbit, hlit, _⟩
      exact Or.inr ⟨(a, b), (mem_drawPairs a b n).mpr ⟨ha, hb⟩, hbit, hlit⟩

/-- Witness for C3 (amended): the spec's own collision test with the lit
pixel stored as 255 — sprite byte 0x80 at I, count 1, Vx = Vy = 0 — where
DRAW does turn pixel (0,0) off and sets VF = 1. -/
theorem draw_xor_toggles_on_binary_fb_witness :
    MdrawFull.fb (tgtPix (MdrawFull.r 0) (MdrawFull.r 0) 0 0) = 255 ∧
    MdrawFull.ram (MdrawFull.i + 0) &&& (0x80 >>> 0) ≠ 0 ∧
    ∃ m1, exec 0 (.DRAW 0 0 1) MdrawFull = some m1 ∧
      m1.fb (tgtPix (MdrawFull.r 0) (MdrawFull.r 0) 0 0) = 0 ∧
      m1.r 15 = 1 := by
  have hfb : ∀ q, MdrawFull.fb q = 0 ∨ MdrawFull.fb q = 255 := by
    intro q
    rcases eq_or_ne q 0 with rfl | hq
    · right
      decide
    · left
      show Function.update (fun _ => 0) 0 255 q = 0
      rw [Function.update_noteq hq]
  obtain ⟨m1, he, hpc, htog, hkeep, hr01, hiff⟩ :=
    draw_xor_toggles_on_binary_fb 0 0 0 1 MdrawFull (by decide) (by decide)
      (by decide) (by decide) (by decide) (by decide) hfb
  refine ⟨by decide, by decide, m1, he, ?_, ?_⟩
  · exact (htog 0 0 (by decide) (by decide) (by decide)).1 (by decide)
  · exact hiff.mpr ⟨0, 0, by decide, by decide, by decide, by decide,
      (htog 0 0 (by decide) (by decide) (by decide)).1 (by decide)⟩

end Chip8
